import Mathlib

/-!
Verification of the versioned question/answer reconciliation engine: the
question revision store, the versioned metadata codec, the binding
resolver, the answer status evaluator, the hydration service, the write
service under optimistic row-version checks, and the submission metadata
builder. The repository ships the Jest suite
(src/lib/technology/service.hydration.test.ts), data scripts and the
Prisma migration; the service module itself is not among the shipped
sources, so the definitions below are modelled from the specification
and checked against the behaviour the shipped tests and scripts pin down.
-/

namespace CCIV

/-- Answer status per field: the three terminal states of the evaluator. -/
inductive AnswerStatus where
  | FRESH
  | STALE
  | UNKNOWN
deriving DecidableEq, Repr

/-- A VersionedAnswer entry of the flexible metadata bag: the answer value,
the id of the question revision it was answered against, an answered-at
timestamp and a source tag. -/
structure VersionedAnswer where
  value : Option String
  questionRevisionId : String
  answeredAt : Option String
  source : Option String
deriving DecidableEq, Repr

/-- A raw (not yet validated) bag entry as read from the JSON document:
every field may be missing, which makes the entry malformed. -/
structure RawVersionedAnswer where
  value : Option String
  questionRevisionId : Option String
  answeredAt : Option String
  source : Option String
deriving DecidableEq, Repr

/-- Association-list lookup by key, first match wins (JSON object keys). -/
def lookupKey {α : Type} (k : String) : List (String × α) → Option α
  | [] => none
  | (k', v) :: rest => if k' = k then some v else lookupKey k rest

/-- Modelled from the spec: the core of getAnswerStatus in
src/lib/technology/answer-status.ts, a file not among the shipped sources.
FRESH when an entry exists and its questionRevisionId equals the current
revision id, STALE when an entry exists and the ids differ, UNKNOWN when no
entry exists. -/
def evaluate (entry : Option VersionedAnswer) (currentRevisionId : String) : AnswerStatus :=
  match entry with
  | none => AnswerStatus.UNKNOWN
  | some e =>
    if e.questionRevisionId = currentRevisionId then AnswerStatus.FRESH
    else AnswerStatus.STALE

/-- Modelled from the spec: validation of one raw bag entry by the codec
(parse side); an entry without a questionRevisionId carries no revision
tracking information and is skipped as malformed. -/
def parseVersionedAnswerEntry (raw : RawVersionedAnswer) : Option VersionedAnswer :=
  match raw.questionRevisionId with
  | none => none
  | some rid => some ⟨raw.value, rid, raw.answeredAt, raw.source⟩

/-- Modelled from the spec: parseVersionedAnswerMap of the versioned
metadata codec (src/lib/technology/service.ts, not among the shipped
sources). Tolerant of malformed entries: it skips them rather than
failing. -/
def parseVersionedAnswerMap (bag : List (String × RawVersionedAnswer)) :
    List (String × VersionedAnswer) :=
  bag.filterMap fun kv => (parseVersionedAnswerEntry kv.2).map fun v => (kv.1, v)

/-- Serialization of one validated entry back to its raw JSON shape. -/
def serializeVersionedAnswer (v : VersionedAnswer) : RawVersionedAnswer :=
  ⟨v.value, some v.questionRevisionId, v.answeredAt, v.source⟩

/-- Modelled from the spec: encode of the versioned metadata codec. Merges
the update batch into the existing map without disturbing untouched keys
(partial update, never replace-whole-document): an updated key carries its
new entry, every other key of the existing map is kept as it was. -/
def encodeVersionedAnswerMap (existing updates : List (String × VersionedAnswer)) :
    List (String × RawVersionedAnswer) :=
  (updates.map fun kv => (kv.1, serializeVersionedAnswer kv.2)) ++
    ((existing.filter fun kv => (lookupKey kv.1 updates).isNone).map
      fun kv => (kv.1, serializeVersionedAnswer kv.2))

/-- A repeated-group row: named cells of one row. -/
abbrev GroupRow := List (String × String)

/-- A resolved field value: a scalar or a repeated-group array of rows. -/
inductive FieldValue where
  | scalar (s : String)
  | rows (rs : List GroupRow)
deriving DecidableEq, Repr

/-- A writable sub-record of the subject entity (a stage): its optimistic
row version, its structured columns and its flexible metadata bag. -/
structure SubRecord where
  rowVersion : Nat
  fields : List (String × FieldValue)
  extendedData : Option (List (String × RawVersionedAnswer))
deriving DecidableEq, Repr

/-- The subject entity (a technology record) with its sub-records, as the
hydration and write services load it. -/
structure Technology where
  id : String
  techId : String
  rowVersion : Nat
  fields : List (String × FieldValue)
  triageStage : Option SubRecord
  viabilityStage : Option SubRecord
deriving DecidableEq, Repr

/-- Split a binding path on the dot character, accumulator over the
remaining characters. -/
def splitDotAux : List Char → List Char → List String
  | [], acc => [String.mk acc.reverse]
  | c :: cs, acc =>
    if c = '.' then String.mk acc.reverse :: splitDotAux cs []
    else splitDotAux cs (c :: acc)

/-- Split a binding path string on dots into its segments. -/
def splitDot (s : String) : List String :=
  splitDotAux s.toList []

/-- The structured columns behind one binding root: the technology record
itself or one of its stage sub-records; any other root is unknown. -/
def rootFields (root : String) (tech : Technology) : Option (List (String × FieldValue)) :=
  if root = "technology" then some tech.fields
  else if root = "triageStage" then tech.triageStage.map SubRecord.fields
  else if root = "viabilityStage" then tech.viabilityStage.map SubRecord.fields
  else none

/-- Modelled from the spec: resolveBindingValue of
src/lib/technology/service.ts (not among the shipped sources). Navigates a
two-level dot path root.field against the structured sub-records; an
unknown root or a path that is not exactly two segments is a lookup miss
returning none, never an error. -/
def resolveBindingValue (path : String) (tech : Technology) : Option FieldValue :=
  match splitDot path with
  | [root, field] => (rootFields root tech).bind (lookupKey field)
  | _ => none

/-- A dictionary entry resolved for a question: its stable key, the id of
its current revision and its binding path. -/
structure QuestionDictionary where
  id : String
  key : String
  currentRevisionId : String
  bindingPath : String
deriving DecidableEq, Repr

/-- A form question: its field code, whether it is a repeatable group, and
its optional dictionary link. -/
structure FormQuestion where
  id : String
  fieldCode : String
  isRepeatable : Bool
  dictionary : Option QuestionDictionary
deriving DecidableEq, Repr

/-- A form section: its ordered questions. -/
structure FormSection where
  id : String
  questions : List FormQuestion
deriving DecidableEq, Repr

/-- A form template: its ordered sections. -/
structure FormTemplate where
  id : String
  sections : List FormSection
deriving DecidableEq, Repr

/-- All questions of a template in section order. -/
def templateQuestions (t : FormTemplate) : List FormQuestion :=
  t.sections.foldr (fun s acc => s.questions ++ acc) []

/-- Binding metadata resolved per question at template-load time. -/
structure BindingMetadata where
  dictionaryKey : String
  currentRevisionId : String
  bindingPath : String
deriving DecidableEq, Repr

/-- Modelled from the spec: collectBindingMetadata of
src/lib/technology/service.ts (not among the shipped sources). Walks the
question list keeping only dictionary-backed questions. -/
def collectBindingMetadata (t : FormTemplate) : List (String × BindingMetadata) :=
  (templateQuestions t).filterMap fun q =>
    q.dictionary.map fun d => (q.fieldCode, (⟨d.key, d.currentRevisionId, d.bindingPath⟩ : BindingMetadata))

/-- Computed per-field answer metadata: the evaluated status and the
revision bookkeeping around it. Recomputed on every hydration. -/
structure AnswerMetadata where
  status : AnswerStatus
  dictionaryKey : Option String
  savedRevisionId : Option String
  currentRevisionId : Option String
  answeredAt : Option String
  source : Option String
deriving DecidableEq, Repr

/-- Modelled from the spec: getAnswerStatus of
src/lib/technology/answer-status.ts (not among the shipped sources).
Builds the full per-field metadata from the question and the matching bag
entry; a question without a dictionary link is outside the versioning
system and reports UNKNOWN. -/
def getAnswerStatus (q : FormQuestion) (entry : Option VersionedAnswer) : AnswerMetadata :=
  match q.dictionary with
  | none =>
    { status := AnswerStatus.UNKNOWN
      dictionaryKey := none
      savedRevisionId := entry.map VersionedAnswer.questionRevisionId
      currentRevisionId := none
      answeredAt := entry.bind VersionedAnswer.answeredAt
      source := entry.bind VersionedAnswer.source }
  | some d =>
    { status := evaluate entry d.currentRevisionId
      dictionaryKey := some d.key
      savedRevisionId := entry.map VersionedAnswer.questionRevisionId
      currentRevisionId := some d.currentRevisionId
      answeredAt := entry.bind VersionedAnswer.answeredAt
      source := entry.bind VersionedAnswer.source }

/-- The parsed flexible bag of one scope; each stage bag is parsed once up
front, and the technology root has no bag column. -/
def scopeBag (tech : Technology) (root : String) : List (String × VersionedAnswer) :=
  if root = "triageStage" then
    parseVersionedAnswerMap ((tech.triageStage.bind SubRecord.extendedData).getD [])
  else if root = "viabilityStage" then
    parseVersionedAnswerMap ((tech.viabilityStage.bind SubRecord.extendedData).getD [])
  else []

/-- The root segment of a binding path. -/
def pathRoot (path : String) : String :=
  (splitDot path).headD ""

/-- The bag entry matched for one dictionary-backed question: its
dictionary key looked up in the parsed bag of its binding root. -/
def bagEntryFor (tech : Technology) (d : QuestionDictionary) : Option VersionedAnswer :=
  lookupKey d.key (scopeBag tech (pathRoot d.bindingPath))

/-- The rows of a repeated-group value; a scalar normalizes to no rows. -/
def rowsOf : FieldValue → List GroupRow
  | FieldValue.scalar _ => []
  | FieldValue.rows rs => rs

/-- Modelled from the spec: the per-question scalar value branch of
buildInitialValues (src/lib/technology/service.ts, not among the shipped
sources). The structured column is the sole value source when dictionary
bound: the value is taken via the binding path and never from the bag; a
repeated-group value goes to the repeat groups instead. -/
def responseValue (tech : Technology) (q : FormQuestion) : Option FieldValue :=
  match q.dictionary with
  | none => none
  | some d =>
    match resolveBindingValue d.bindingPath tech with
    | none => none
    | some v => if q.isRepeatable then none else some v

/-- Modelled from the spec: the per-question repeated-group branch of
buildInitialValues. -/
def repeatRowsValue (tech : Technology) (q : FormQuestion) : Option (List GroupRow) :=
  match q.dictionary with
  | none => none
  | some d =>
    match resolveBindingValue d.bindingPath tech with
    | none => none
    | some v => if q.isRepeatable then some (rowsOf v) else none

/-- Modelled from the spec: the per-question status branch of
buildInitialValues. When the binding path resolves to no value the status
is evaluate over no entry and the loop moves on; when a value is present
the bag entry for the dictionary key supplies the status metadata. -/
def metadataFor (tech : Technology) (q : FormQuestion) : AnswerMetadata :=
  match q.dictionary with
  | none => getAnswerStatus q none
  | some d =>
    match resolveBindingValue d.bindingPath tech with
    | none => getAnswerStatus q none
    | some _ => getAnswerStatus q (bagEntryFor tech d)

/-- The value/status payload of one hydration. -/
structure HydrationValues where
  initialResponses : List (String × FieldValue)
  initialRepeatGroups : List (String × List GroupRow)
  answerMetadata : List (String × AnswerMetadata)
deriving DecidableEq, Repr

/-- Modelled from the spec: buildInitialValues of
src/lib/technology/service.ts (not among the shipped sources). One pass
over the template questions, writing each resolved structured value into
the responses or repeat groups and recording each evaluated status into
the answer metadata keyed by field code. -/
def buildInitialValues (t : FormTemplate) (tech : Technology) : HydrationValues :=
  { initialResponses :=
      (templateQuestions t).filterMap fun q =>
        (responseValue tech q).map fun v => (q.fieldCode, v)
    initialRepeatGroups :=
      (templateQuestions t).filterMap fun q =>
        (repeatRowsValue tech q).map fun rs => (q.fieldCode, rs)
    answerMetadata :=
      (templateQuestions t).map fun q => (q.fieldCode, metadataFor tech q) }

/-- Subject existence flags summarized for the caller. -/
structure TechnologyContext where
  id : String
  techId : String
  hasTriageStage : Bool
  hasViabilityStage : Bool
deriving DecidableEq, Repr

/-- Row versions collected from each loaded sub-record. -/
structure RowVersionSnapshot where
  technologyRowVersion : Option Nat
  triageRowVersion : Option Nat
  viabilityRowVersion : Option Nat
deriving DecidableEq, Repr

/-- The full hydration payload. -/
structure LoadResult where
  template : FormTemplate
  bindingMetadata : List (String × BindingMetadata)
  initialResponses : List (String × FieldValue)
  initialRepeatGroups : List (String × List GroupRow)
  answerMetadata : List (String × AnswerMetadata)
  technologyContext : Option TechnologyContext
  rowVersions : RowVersionSnapshot
deriving DecidableEq, Repr

/-- Modelled from the spec: loadTemplateWithBindings of
src/lib/technology/service.ts (not among the shipped sources). The first
argument is the active-template lookup result; the second is the subject
query: none when no subject id was given, some of the lookup result
otherwise. No active template is an error; a failed subject lookup is not:
it returns empty responses and metadata with the template and binding
metadata intact. -/
def loadTemplateWithBindings (activeTemplate : Option FormTemplate)
    (techQuery : Option (Option Technology)) : Except String LoadResult :=
  match activeTemplate with
  | none => Except.error "No active form template found"
  | some t =>
    let bm := collectBindingMetadata t
    match techQuery with
    | none => Except.ok ⟨t, bm, [], [], [], none, ⟨none, none, none⟩⟩
    | some none => Except.ok ⟨t, bm, [], [], [], none, ⟨none, none, none⟩⟩
    | some (some tech) =>
      let hv := buildInitialValues t tech
      Except.ok
        ⟨t, bm, hv.initialResponses, hv.initialRepeatGroups, hv.answerMetadata,
          some ⟨tech.id, tech.techId, tech.triageStage.isSome, tech.viabilityStage.isSome⟩,
          ⟨some tech.rowVersion, tech.triageStage.map SubRecord.rowVersion,
            tech.viabilityStage.map SubRecord.rowVersion⟩⟩

/-- Modelled from the spec: fetchTemplateWithBindingsById of
src/lib/technology/service.ts (not among the shipped sources). The first
argument is the by-id lookup; a missing id is an error. -/
def fetchTemplateWithBindingsById (lookup : String → Option FormTemplate) (tplId : String) :
    Except String (FormTemplate × List (String × BindingMetadata)) :=
  match lookup tplId with
  | none => Except.error ("Form template not found for id " ++ tplId)
  | some t => Except.ok (t, collectBindingMetadata t)

/-- Overwrite one structured column, appending when it is new. -/
def setField : List (String × FieldValue) → String → FieldValue → List (String × FieldValue)
  | [], k, v => [(k, v)]
  | (k', v') :: rest, k, v =>
    if k' = k then (k, v) :: rest else (k', v') :: setField rest k v

/-- Apply a batch of column writes to the structured columns. -/
def applyFields (fields : List (String × FieldValue)) (data : List (String × FieldValue)) :
    List (String × FieldValue) :=
  data.foldl (fun fs kv => setField fs kv.1 kv.2) fields

/-- The writes aimed at one stage scope: the new scalar column values and
the versioned metadata updates computed for every changed field. -/
structure StageWrite where
  fields : List (String × FieldValue)
  bagUpdates : List (String × VersionedAnswer)
deriving DecidableEq, Repr

/-- Modelled from the spec: the conditional update of the technology
record inside applyBindingWrites (src/lib/technology/service.ts, not among
the shipped sources): an updateMany keyed on id and the expected row
version, incrementing the version atomically; zero affected rows raises
OptimisticLockError. -/
def conditionalUpdateTechnology (tech : Technology) (expected : Nat)
    (data : List (String × FieldValue)) : Except String Technology :=
  if tech.rowVersion = expected then
    Except.ok { tech with fields := applyFields tech.fields data, rowVersion := tech.rowVersion + 1 }
  else Except.error "OptimisticLockError: Technology record was modified by another user."

/-- Modelled from the spec: the conditional update of one stage sub-record
inside applyBindingWrites, under the same optimistic-lock discipline; the
metadata updates are merged into the existing bag through the codec rather
than replacing it. -/
def conditionalUpdateStage (stage : SubRecord) (expected : Nat) (w : StageWrite) :
    Except String SubRecord :=
  if stage.rowVersion = expected then
    Except.ok
      { rowVersion := stage.rowVersion + 1
        fields := applyFields stage.fields w.fields
        extendedData :=
          some (encodeVersionedAnswerMap (parseVersionedAnswerMap (stage.extendedData.getD []))
            w.bagUpdates) }
  else Except.error "OptimisticLockError: Stage record was modified by another user."

/-- Modelled from the spec: applyBindingWrites of
src/lib/technology/service.ts (not among the shipped sources), restricted
to the update path with an expected row version. The technology write and
the optional triage-stage write run inside one transaction: if any
conditional update affects zero rows the whole transaction aborts with
OptimisticLockError. -/
def applyBindingWrites (tech : Technology) (techData : List (String × FieldValue))
    (stageWrite : Option StageWrite) (expectedTech : Nat) (expectedStage : Option Nat) :
    Except String Technology :=
  match conditionalUpdateTechnology tech expectedTech techData with
  | Except.error msg => Except.error msg
  | Except.ok tech1 =>
    match stageWrite with
    | none => Except.ok tech1
    | some w =>
      match tech1.triageStage, expectedStage with
      | some stage, some e =>
        match conditionalUpdateStage stage e w with
        | Except.error msg => Except.error msg
        | Except.ok stage1 => Except.ok { tech1 with triageStage := some stage1 }
      | _, _ => Except.error "OptimisticLockError: Stage record was modified by another user."

/-- The database state after the transaction: the new record when it
commits, the untouched record when it aborts (no column is mutated). -/
def commitBindingWrites (tech : Technology) (techData : List (String × FieldValue))
    (stageWrite : Option StageWrite) (expectedTech : Nat) (expectedStage : Option Nat) :
    Technology :=
  match applyBindingWrites tech techData stageWrite expectedTech expectedStage with
  | Except.ok tech' => tech'
  | Except.error _ => tech

/-- A persisted scalar submission response record: question code, value
and the revision id active at answer time. -/
structure SubmissionResponseRecord where
  questionCode : String
  value : String
  questionRevisionId : String
deriving DecidableEq, Repr

/-- A persisted repeated-group row record. -/
structure SubmissionRepeatGroupRecord where
  questionCode : String
  rowIndex : Nat
  rowData : GroupRow
  questionRevisionId : String
deriving DecidableEq, Repr

/-- Insert one row into a list already ordered by row index. -/
def insertRow (r : SubmissionRepeatGroupRecord) :
    List SubmissionRepeatGroupRecord → List SubmissionRepeatGroupRecord
  | [] => [r]
  | x :: xs => if r.rowIndex ≤ x.rowIndex then r :: x :: xs else x :: insertRow r xs

/-- Sort repeated-group rows by row index ascending. -/
def sortRows : List SubmissionRepeatGroupRecord → List SubmissionRepeatGroupRecord
  | [] => []
  | x :: xs => insertRow x (sortRows xs)

/-- Modelled from the spec: the per-question branch of
buildSubmissionAnswerMetadata (src/lib/technology/service.ts, not among
the shipped sources). A repeatable question groups its rows by field code
sorted by row index ascending and is FRESH only when every row matches the
current revision; a scalar question evaluates its one response record; a
question with no dictionary link or no record yields no entry. Every entry
carries the single answeredAt supplied by the caller. -/
def submissionMetadataFor (responses : List SubmissionResponseRecord)
    (repeats : List SubmissionRepeatGroupRecord) (answeredAt : String)
    (q : FormQuestion) : Option AnswerMetadata :=
  match q.dictionary with
  | none => none
  | some d =>
    if q.isRepeatable then
      match sortRows (repeats.filter fun r => r.questionCode = q.fieldCode) with
      | [] => none
      | r0 :: rest =>
        some
          { status :=
              if (r0 :: rest).all (fun r => r.questionRevisionId = d.currentRevisionId) then
                AnswerStatus.FRESH
              else AnswerStatus.STALE
            dictionaryKey := some d.key
            savedRevisionId := some r0.questionRevisionId
            currentRevisionId := some d.currentRevisionId
            answeredAt := some answeredAt
            source := some "submission" }
    else
      match responses.find? (fun r => r.questionCode = q.fieldCode) with
      | none => none
      | some r =>
        some
          { status := evaluate (some ⟨some r.value, r.questionRevisionId, none, none⟩)
              d.currentRevisionId
            dictionaryKey := some d.key
            savedRevisionId := some r.questionRevisionId
            currentRevisionId := some d.currentRevisionId
            answeredAt := some answeredAt
            source := some "submission" }

/-- Modelled from the spec: buildSubmissionAnswerMetadata of
src/lib/technology/service.ts (not among the shipped sources). Rebuilds
the answer metadata purely from persisted submission records and the live
template. -/
def buildSubmissionAnswerMetadata (t : FormTemplate)
    (responses : List SubmissionResponseRecord)
    (repeats : List SubmissionRepeatGroupRecord) (answeredAt : String) :
    List (String × AnswerMetadata) :=
  (templateQuestions t).filterMap fun q =>
    (submissionMetadataFor responses repeats answeredAt q).map fun m => (q.fieldCode, m)

/-- An immutable question revision row, shaped after the
question_revisions table of migration
prisma/migrations/20251030_add_question_revisions/migration.sql. -/
structure QuestionRevision where
  id : String
  dictionaryId : String
  questionKey : String
  versionNumber : Nat
  label : String
  helpText : Option String
  significantChange : Bool
deriving DecidableEq, Repr

/-- A question dictionary row with its current-revision pointer and
version counter. -/
structure QuestionEntry where
  id : String
  key : String
  currentVersion : Nat
  currentRevisionId : Option String
deriving DecidableEq, Repr

/-- The state of the question revision store. -/
structure RevisionStore where
  questions : List QuestionEntry
  revisions : List QuestionRevision
deriving DecidableEq, Repr

/-- The content of a new revision. -/
structure RevisionContent where
  label : String
  helpText : Option String
  significant : Bool
deriving DecidableEq, Repr

/-- The largest version number among a list of revisions. -/
def maxVersion : List QuestionRevision → Nat
  | [] => 0
  | r :: rs => Nat.max r.versionNumber (maxVersion rs)

/-- Modelled from the spec: createRevision of the question revision store
(not among the shipped sources; the migration pins the unique
questionKey and versionNumber index). Appends a new immutable revision
row with version number one past the maximum over the existing revisions
of that question, and advances the owning question pointer and version
counter; an unknown question key is NotFound. -/
def createRevision (store : RevisionStore) (questionKey : String) (newId : String)
    (content : RevisionContent) : Except String RevisionStore :=
  match store.questions.find? (fun q => q.key = questionKey) with
  | none => Except.error ("NotFound: no question for key " ++ questionKey)
  | some q =>
    let nextVersion := maxVersion (store.revisions.filter fun r => r.questionKey = questionKey) + 1
    let rev : QuestionRevision :=
      ⟨newId, q.id, questionKey, nextVersion, content.label, content.helpText,
        content.significant⟩
    Except.ok
      { questions :=
          store.questions.map fun q' =>
            if q'.key = questionKey then
              { q' with currentVersion := nextVersion, currentRevisionId := some newId }
            else q'
        revisions := store.revisions ++ [rev] }

/-- Revision uniqueness invariant of the store: two revisions of the same
question never carry the same version number. -/
def UniqueRevisionKey (rs : List QuestionRevision) : Prop :=
  ∀ r1 ∈ rs, ∀ r2 ∈ rs,
    r1.questionKey = r2.questionKey → r1.versionNumber = r2.versionNumber → r1 = r2

/-! Concrete fixtures, mirroring the shipped Jest fixtures and scripts. -/

/-- The technology-name dictionary entry of the hydration fixture. -/
def demoDictTechName : QuestionDictionary :=
  ⟨"dict-tech-name", "technologyName", "rev-tech-name", "technology.technologyName"⟩

/-- The triage-notes dictionary entry of the hydration fixture. -/
def demoDictTriageNotes : QuestionDictionary :=
  ⟨"dict-triage-notes", "triageNotes", "rev-triage", "triageStage.notes"⟩

/-- The scalar technology-name question of the hydration fixture. -/
def demoQTechName : FormQuestion :=
  ⟨"q-tech-name", "TECH_NAME", false, some demoDictTechName⟩

/-- The scalar triage-notes question of the hydration fixture. -/
def demoQTriageNotes : FormQuestion :=
  ⟨"q-triage-notes", "TRIAGE_NOTES", false, some demoDictTriageNotes⟩

/-- The hydration fixture template. -/
def demoTemplate : FormTemplate :=
  ⟨"tpl-hydration", [⟨"section-basics", [demoQTechName, demoQTriageNotes]⟩]⟩

/-- A subject entity with the technology name present as a structured
column, a triage stage whose bag carries an entry for the triage notes,
and no value behind the triage-notes binding path. -/
def demoTech : Technology :=
  ⟨"tech-123", "D25-0001", 5,
    [("technologyName", FieldValue.scalar "Hydration Patch")],
    some ⟨2, [],
      some [("triageNotes",
        ⟨some "Important considerations", some "rev-stale", some "2025-01-01T10:00:00Z",
          some "triageStage"⟩)]⟩,
    none⟩

/-- Scenario E fixture: a repeatable team-members dictionary entry. -/
def demoDictTeam : QuestionDictionary :=
  ⟨"dict-team", "teamMembers", "rev-team", "technology.teamMembers"⟩

/-- The repeatable team-members question. -/
def demoQTeam : FormQuestion :=
  ⟨"q-team", "TEAM_MEMBERS", true, some demoDictTeam⟩

/-- A template holding only the repeatable question. -/
def demoTemplateTeam : FormTemplate :=
  ⟨"tpl-team", [⟨"section-team", [demoQTeam]⟩]⟩

/-- Three persisted rows for the group, one answered against a stale
revision. -/
def demoTeamRows : List SubmissionRepeatGroupRecord :=
  [⟨"TEAM_MEMBERS", 1, [("name", "Dr. Chen")], "rev-team"⟩,
   ⟨"TEAM_MEMBERS", 0, [("name", "Dr. Rivera")], "rev-team"⟩,
   ⟨"TEAM_MEMBERS", 2, [("name", "Dr. Patel")], "rev-team-old"⟩]

/-- A revision-store fixture holding one question with one prior
revision. -/
def demoRevisionStore : RevisionStore :=
  ⟨[⟨"dict-overview", "triage.technologyOverview", 1, some "rev-1"⟩],
   [⟨"rev-1", "dict-overview", "triage.technologyOverview", 1, "Technology Overview",
      none, true⟩]⟩

/-- A significant revision content for the fixture. -/
def demoRevisionContent : RevisionContent :=
  ⟨"Technology Overview v2", none, true⟩

/-- The store after creating the second revision of the fixture
question. -/
def demoRevisionStoreAfter : RevisionStore :=
  ⟨[⟨"dict-overview", "triage.technologyOverview", 2, some "rev-2"⟩],
   [⟨"rev-1", "dict-overview", "triage.technologyOverview", 1, "Technology Overview",
      none, true⟩,
    ⟨"rev-2", "dict-overview", "triage.technologyOverview", 2, "Technology Overview v2",
      none, true⟩]⟩

/-! Helper lemmas about association-list lookups. -/

theorem lookupKey_append {α : Type} (k : String) (l1 l2 : List (String × α)) :
    lookupKey k (l1 ++ l2) =
      match lookupKey k l1 with
      | some v => some v
      | none => lookupKey k l2 := by
  induction l1 with
  | nil => simp [lookupKey]
  | cons kv rest ih =>
    by_cases h : kv.1 = k
    · simp [lookupKey, h]
    · simpa [lookupKey, h] using ih

theorem lookupKey_mem {α : Type} {k : String} {v : α} {l : List (String × α)}
    (h : lookupKey k l = some v) : (k, v) ∈ l := by
  induction l with
  | nil => simp [lookupKey] at h
  | cons kv rest ih =>
    obtain ⟨k1, v1⟩ := kv
    by_cases hk : k1 = k
    · simp [lookupKey, hk] at h
      exact List.mem_cons.mpr (Or.inl (by rw [hk, h]))
    · simp [lookupKey, hk] at h
      exact List.mem_cons_of_mem _ (ih h)

theorem lookupKey_keyed_filterMap_not_mem {β : Type} (k : String)
    (qs : List FormQuestion) (f : FormQuestion → Option β)
    (h : k ∉ qs.map FormQuestion.fieldCode) :
    lookupKey k (qs.filterMap fun q => (f q).map fun b => (q.fieldCode, b)) = none := by
  induction qs with
  | nil => rfl
  | cons q0 rest ih =>
    have hk : q0.fieldCode ≠ k := by
      intro he
      exact h (by simp [he])
    have hrest : k ∉ rest.map FormQuestion.fieldCode := by
      intro he
      exact h (by simp [he])
    cases hf : f q0 with
    | none => simpa [List.filterMap_cons, hf] using ih hrest
    | some b => simpa [List.filterMap_cons, hf, lookupKey, hk] using ih hrest

theorem lookupKey_keyed_filterMap_mem {β : Type} {qs : List FormQuestion} {q : FormQuestion}
    (f : FormQuestion → Option β) (hmem : q ∈ qs)
    (hnd : (qs.map FormQuestion.fieldCode).Nodup) :
    lookupKey q.fieldCode (qs.filterMap fun q' => (f q').map fun b => (q'.fieldCode, b)) =
      f q := by
  induction qs with
  | nil => cases hmem
  | cons q0 rest ih =>
    have hnd' : (rest.map FormQuestion.fieldCode).Nodup := (List.nodup_cons.mp hnd).2
    have hhead : q0.fieldCode ∉ rest.map FormQuestion.fieldCode := (List.nodup_cons.mp hnd).1
    rcases List.mem_cons.mp hmem with heq | hrest
    · subst heq
      cases hf : f q with
      | none =>
        simpa [List.filterMap_cons, hf]
          using lookupKey_keyed_filterMap_not_mem q.fieldCode rest f hhead
      | some b => simp [List.filterMap_cons, hf, lookupKey]
    · have hne : q0.fieldCode ≠ q.fieldCode := by
        intro he
        exact hhead (by simpa [he] using List.mem_map_of_mem FormQuestion.fieldCode hrest)
      cases hf : f q0 with
      | none => simpa [List.filterMap_cons, hf] using ih hrest hnd'
      | some b => simpa [List.filterMap_cons, hf, lookupKey, hne] using ih hrest hnd'

theorem lookupKey_keyed_map_mem {β : Type} {qs : List FormQuestion} {q : FormQuestion}
    (g : FormQuestion → β) (hmem : q ∈ qs)
    (hnd : (qs.map FormQuestion.fieldCode).Nodup) :
    lookupKey q.fieldCode (qs.map fun q' => (q'.fieldCode, g q')) = some (g q) := by
  induction qs with
  | nil => cases hmem
  | cons q0 rest ih =>
    have hnd' : (rest.map FormQuestion.fieldCode).Nodup := (List.nodup_cons.mp hnd).2
    have hhead : q0.fieldCode ∉ rest.map FormQuestion.fieldCode := (List.nodup_cons.mp hnd).1
    rcases List.mem_cons.mp hmem with heq | hrest
    · subst heq
      simp [lookupKey]
    · have hne : q0.fieldCode ≠ q.fieldCode := by
        intro he
        exact hhead (by simpa [he] using List.mem_map_of_mem FormQuestion.fieldCode hrest)
      simpa [lookupKey, hne] using ih hrest hnd'

/-! The claim theorems. -/

/-- C1: the Answer Status Evaluator returns exactly one of FRESH, STALE,
UNKNOWN: FRESH iff an entry exists and its questionRevisionId equals the
current revision id, STALE iff an entry exists and the ids differ, UNKNOWN
iff no entry exists — exhaustive and mutually exclusive for any input;
neither the structured value nor any significant flag is consulted. -/
theorem evaluate_fresh_stale_unknown :
    ∀ (entry : Option VersionedAnswer) (cur : String),
      (evaluate entry cur = AnswerStatus.FRESH ↔
        ∃ e, entry = some e ∧ e.questionRevisionId = cur) ∧
      (evaluate entry cur = AnswerStatus.STALE ↔
        ∃ e, entry = some e ∧ e.questionRevisionId ≠ cur) ∧
      (evaluate entry cur = AnswerStatus.UNKNOWN ↔ entry = none) := by
  intro entry cur
  cases entry with
  | none => simp [evaluate]
  | some e =>
    by_cases h : e.questionRevisionId = cur <;> simp [evaluate, h]

/-- C5: parse after encode yields the existing map with the updates
applied, and every key outside the update batch is preserved unchanged —
encode is a strict superset merge that never drops an untouched key. -/
theorem parse_encode_roundtrip :
    ∀ (m u : List (String × VersionedAnswer)) (k : String),
      (lookupKey k (parseVersionedAnswerMap (encodeVersionedAnswerMap m u)) =
        match lookupKey k u with
        | some v => some v
        | none => lookupKey k m) ∧
      (lookupKey k u = none →
        lookupKey k (parseVersionedAnswerMap (encodeVersionedAnswerMap m u)) =
          lookupKey k m) := by
  intro m u k
  have hparse : ∀ l : List (String × VersionedAnswer),
      parseVersionedAnswerMap (l.map fun kv => (kv.1, serializeVersionedAnswer kv.2)) = l := by
    intro l
    induction l with
    | nil => rfl
    | cons kv rest ih =>
      simp [parseVersionedAnswerMap, List.filterMap_cons, serializeVersionedAnswer,
        parseVersionedAnswerEntry] at ih ⊢
      exact ih
  have hfilter : lookupKey k u = none →
      lookupKey k (m.filter fun kv => (lookupKey kv.1 u).isNone) = lookupKey k m := by
    intro hu
    induction m with
    | nil => rfl
    | cons kv rest ih =>
      obtain ⟨k1, v1⟩ := kv
      by_cases hk : k1 = k
      · subst hk
        simp [List.filter_cons, hu, lookupKey]
      · by_cases hkeep : (lookupKey k1 u).isNone = true
        · simpa [List.filter_cons, hkeep, lookupKey, hk] using ih
        · simpa [List.filter_cons, hkeep, lookupKey, hk] using ih
  have hmain : lookupKey k (parseVersionedAnswerMap (encodeVersionedAnswerMap m u)) =
      match lookupKey k u with
      | some v => some v
      | none => lookupKey k m := by
    unfold encodeVersionedAnswerMap
    rw [show ((m.filter fun kv => (lookupKey kv.1 u).isNone).map
        fun kv => (kv.1, serializeVersionedAnswer kv.2)) =
        ((m.filter fun kv => (lookupKey kv.1 u).isNone).map
          fun kv => (kv.1, serializeVersionedAnswer kv.2)) from rfl]
    have hsplit : parseVersionedAnswerMap
        ((u.map fun kv => (kv.1, serializeVersionedAnswer kv.2)) ++
          ((m.filter fun kv => (lookupKey kv.1 u).isNone).map
            fun kv => (kv.1, serializeVersionedAnswer kv.2))) =
        u ++ (m.filter fun kv => (lookupKey kv.1 u).isNone) := by
      unfold parseVersionedAnswerMap
      rw [List.filterMap_append]
      unfold parseVersionedAnswerMap at hparse
      rw [hparse u, hparse (m.filter fun kv => (lookupKey kv.1 u).isNone)]
    rw [hsplit, lookupKey_append]
    cases hu : lookupKey k u with
    | some v => rfl
    | none => simpa using hfilter hu
  exact ⟨hmain, fun hu => by rw [hmain, hu]⟩

/-- C7: hydration fails NotFound exactly when the template is missing —
loadTemplateWithBindings with no active template errors, and
fetchTemplateWithBindingsById with an unknown id errors — whereas a failed
subject lookup is not an error: it returns empty responses and metadata
with the template and binding metadata intact. -/
theorem hydration_notfound_vs_missing_subject :
    (∀ techQuery, loadTemplateWithBindings none techQuery =
      Except.error "No active form template found") ∧
    (∀ (tplLookup : String → Option FormTemplate) (tplId : String),
      tplLookup tplId = none →
        fetchTemplateWithBindingsById tplLookup tplId =
          Except.error ("Form template not found for id " ++ tplId)) ∧
    (∀ t : FormTemplate, loadTemplateWithBindings (some t) (some none) =
      Except.ok ⟨t, collectBindingMetadata t, [], [], [], none, ⟨none, none, none⟩⟩) := by
  refine ⟨fun _ => rfl, fun tplLookup tplId h => ?_, fun t => rfl⟩
  simp [fetchTemplateWithBindingsById, h]

/-- C8: resolveBindingValue is total (a Lean function, it cannot throw) and
returns none rather than failing on a path that is not exactly two
dot-separated segments or whose root names no known sub-record. -/
theorem resolveBindingValue_total_miss :
    ∀ (path : String) (tech : Technology),
      ((splitDot path).length ≠ 2 → resolveBindingValue path tech = none) ∧
      (∀ root field, splitDot path = [root, field] → rootFields root tech = none →
        resolveBindingValue path tech = none) := by
  intro path tech
  constructor
  · intro h
    unfold resolveBindingValue
    cases hs : splitDot path with
    | nil => rfl
    | cons a t =>
      cases t with
      | nil => rfl
      | cons b t2 =>
        cases t2 with
        | nil => exact absurd (by rw [hs]; rfl) h
        | cons c t3 => rfl
  · intro root field hs hr
    unfold resolveBindingValue
    rw [hs]
    simp [hr]

/-- C2: hydration of a dictionary-bound scalar question whose binding path
resolves to a present structured value while the bag has no entry under
its dictionary key reports status UNKNOWN for the field and still writes
the structured value into initialResponses — value and status are
independent. -/
theorem hydration_value_present_bag_absent (t : FormTemplate) (tech : Technology)
    (q : FormQuestion) (d : QuestionDictionary) (v : FieldValue)
    (hmem : q ∈ templateQuestions t)
    (hnd : ((templateQuestions t).map FormQuestion.fieldCode).Nodup)
    (hd : q.dictionary = some d)
    (hrep : q.isRepeatable = false)
    (hv : resolveBindingValue d.bindingPath tech = some v)
    (hbag : bagEntryFor tech d = none) :
    lookupKey q.fieldCode (buildInitialValues t tech).initialResponses = some v ∧
    ∃ meta, lookupKey q.fieldCode (buildInitialValues t tech).answerMetadata = some meta ∧
      meta.status = AnswerStatus.UNKNOWN := by
  have hresp := lookupKey_keyed_filterMap_mem (fun q' => responseValue tech q') hmem hnd
  have hmeta := lookupKey_keyed_map_mem (fun q' => metadataFor tech q') hmem hnd
  have hrv : responseValue tech q = some v := by
    simp [responseValue, hd, hv, hrep]
  have hmf : metadataFor tech q = getAnswerStatus q (bagEntryFor tech d) := by
    simp [metadataFor, hd, hv]
  refine ⟨by simpa [buildInitialValues, hrv] using hresp,
    metadataFor tech q, by simpa [buildInitialValues] using hmeta, ?_⟩
  rw [hmf, hbag]
  simp [getAnswerStatus, hd, evaluate]

theorem hydration_value_present_bag_absent_check :
    lookupKey "TECH_NAME" (buildInitialValues demoTemplate demoTech).initialResponses =
      some (FieldValue.scalar "Hydration Patch") ∧
    ∃ meta,
      lookupKey "TECH_NAME" (buildInitialValues demoTemplate demoTech).answerMetadata =
        some meta ∧
      meta.status = AnswerStatus.UNKNOWN :=
  hydration_value_present_bag_absent demoTemplate demoTech demoQTechName demoDictTechName
    (FieldValue.scalar "Hydration Patch") (by decide) (by decide) rfl rfl (by decide) (by decide)

/-- C3: during hydration of a dictionary-bound question the bag entry for
its dictionary key supplies the status metadata in the pass whenever the
structured value is present, and when the binding path resolves to no
value the recorded status is the evaluator applied to no entry while the
value is never taken from the bag — the field gets no response and no
repeat-group entry. -/
theorem hydration_bag_status_same_pass (t : FormTemplate) (tech : Technology)
    (q : FormQuestion) (d : QuestionDictionary)
    (hmem : q ∈ templateQuestions t)
    (hnd : ((templateQuestions t).map FormQuestion.fieldCode).Nodup)
    (hd : q.dictionary = some d) :
    ((∃ v, resolveBindingValue d.bindingPath tech = some v) →
      lookupKey q.fieldCode (buildInitialValues t tech).answerMetadata =
        some (getAnswerStatus q (bagEntryFor tech d))) ∧
    (resolveBindingValue d.bindingPath tech = none →
      lookupKey q.fieldCode (buildInitialValues t tech).answerMetadata =
        some (getAnswerStatus q none) ∧
      (getAnswerStatus q none).status = evaluate none d.currentRevisionId ∧
      lookupKey q.fieldCode (buildInitialValues t tech).initialResponses = none ∧
      lookupKey q.fieldCode (buildInitialValues t tech).initialRepeatGroups = none) := by
  have hmeta := lookupKey_keyed_map_mem (fun q' => metadataFor tech q') hmem hnd
  have hresp := lookupKey_keyed_filterMap_mem (fun q' => responseValue tech q') hmem hnd
  have hrg := lookupKey_keyed_filterMap_mem (fun q' => repeatRowsValue tech q') hmem hnd
  constructor
  · rintro ⟨v, hv⟩
    have hmf : metadataFor tech q = getAnswerStatus q (bagEntryFor tech d) := by
      simp [metadataFor, hd, hv]
    rw [← hmf]
    simpa [buildInitialValues] using hmeta
  · intro hv
    have hmf : metadataFor tech q = getAnswerStatus q none := by
      simp [metadataFor, hd, hv]
    have hrv : responseValue tech q = none := by
      simp [responseValue, hd, hv]
    have hrgv : repeatRowsValue tech q = none := by
      simp [repeatRowsValue, hd, hv]
    refine ⟨by rw [← hmf]; simpa [buildInitialValues] using hmeta, ?_,
      by simpa [buildInitialValues, hrv] using hresp,
      by simpa [buildInitialValues, hrgv] using hrg⟩
    simp [getAnswerStatus, hd, evaluate]

theorem hydration_bag_status_same_pass_check :
    ((∃ v, resolveBindingValue demoDictTriageNotes.bindingPath demoTech = some v) →
      lookupKey "TRIAGE_NOTES" (buildInitialValues demoTemplate demoTech).answerMetadata =
        some (getAnswerStatus demoQTriageNotes (bagEntryFor demoTech demoDictTriageNotes))) ∧
    (resolveBindingValue demoDictTriageNotes.bindingPath demoTech = none →
      lookupKey "TRIAGE_NOTES" (buildInitialValues demoTemplate demoTech).answerMetadata =
        some (getAnswerStatus demoQTriageNotes none) ∧
      (getAnswerStatus demoQTriageNotes none).status =
        evaluate none demoDictTriageNotes.currentRevisionId ∧
      lookupKey "TRIAGE_NOTES" (buildInitialValues demoTemplate demoTech).initialResponses =
        none ∧
      lookupKey "TRIAGE_NOTES"
          (buildInitialValues demoTemplate demoTech).initialRepeatGroups = none) :=
  hydration_bag_status_same_pass demoTemplate demoTech demoQTriageNotes demoDictTriageNotes
    (by decide) (by decide) rfl

/-- C4: applyBindingWrites with an expected row version commits only when
the record still carries the expected version and then increments it
atomically; a version mismatch on the subject record or on the stage
sub-record aborts the whole transaction with OptimisticLockError and
leaves the record untouched; and a second application of the same write
with the same expected version always fails with OptimisticLockError. -/
theorem applyBindingWrites_optimistic_lock :
    ∀ (tech : Technology) (techData : List (String × FieldValue)) (w : Option StageWrite)
      (e : Nat) (es : Option Nat),
      (∀ tech', applyBindingWrites tech techData w e es = Except.ok tech' →
        tech.rowVersion = e ∧ tech'.rowVersion = e + 1 ∧
        ∀ d2 w2 es2,
          applyBindingWrites tech' d2 w2 e es2 =
            Except.error
              "OptimisticLockError: Technology record was modified by another user.") ∧
      (tech.rowVersion ≠ e →
        applyBindingWrites tech techData w e es =
          Except.error
            "OptimisticLockError: Technology record was modified by another user." ∧
        commitBindingWrites tech techData w e es = tech) ∧
      (∀ stage sw se, tech.triageStage = some stage → w = some sw → es = some se →
        stage.rowVersion ≠ se →
        (∃ msg, applyBindingWrites tech techData w e es = Except.error msg) ∧
        commitBindingWrites tech techData w e es = tech) := by
  intro tech techData w e es
  refine ⟨?_, ?_, ?_⟩
  · intro tech' hok
    by_cases hv : tech.rowVersion = e
    · have hver : tech'.rowVersion = tech.rowVersion + 1 := by
        unfold applyBindingWrites conditionalUpdateTechnology at hok
        rw [if_pos hv] at hok
        cases w with
        | none =>
          simp at hok
          rw [← hok]
        | some sw =>
          cases hts : tech.triageStage with
          | none =>
            simp [hts] at hok
          | some stage =>
            cases hes : es with
            | none => simp [hts, hes] at hok
            | some se =>
              by_cases hsv : stage.rowVersion = se
              · simp [hts, hes, conditionalUpdateStage, hsv] at hok
                rw [← hok]
              · simp [hts, hes, conditionalUpdateStage, hsv] at hok
      refine ⟨hv, by rw [hver, hv], ?_⟩
      intro d2 w2 es2
      have hne : tech'.rowVersion ≠ e := by rw [hver, hv]; omega
      unfold applyBindingWrites conditionalUpdateTechnology
      rw [if_neg hne]
    · exfalso
      unfold applyBindingWrites conditionalUpdateTechnology at hok
      rw [if_neg hv] at hok
      simp at hok
  · intro hv
    have herr : applyBindingWrites tech techData w e es =
        Except.error
          "OptimisticLockError: Technology record was modified by another user." := by
      unfold applyBindingWrites conditionalUpdateTechnology
      rw [if_neg hv]
    exact ⟨herr, by unfold commitBindingWrites; rw [herr]⟩
  · intro stage sw se hts hw hes hsv
    by_cases hv : tech.rowVersion = e
    · have herr : applyBindingWrites tech techData w e es =
          Except.error
            "OptimisticLockError: Stage record was modified by another user." := by
        unfold applyBindingWrites conditionalUpdateTechnology
        rw [if_pos hv]
        simp only [hw, hts, hes]
        unfold conditionalUpdateStage
        rw [if_neg hsv]
      exact ⟨⟨_, herr⟩, by unfold commitBindingWrites; rw [herr]⟩
    · have herr : applyBindingWrites tech techData w e es =
          Except.error
            "OptimisticLockError: Technology record was modified by another user." := by
        unfold applyBindingWrites conditionalUpdateTechnology
        rw [if_neg hv]
      exact ⟨⟨_, herr⟩, by unfold commitBindingWrites; rw [herr]⟩

/-! Sorting helper lemmas for the repeated-group rows. -/

theorem mem_insertRow (r : SubmissionRepeatGroupRecord)
    (l : List SubmissionRepeatGroupRecord) (y : SubmissionRepeatGroupRecord) :
    y ∈ insertRow r l ↔ y = r ∨ y ∈ l := by
  induction l with
  | nil => simp [insertRow]
  | cons x xs ih =>
    by_cases h : r.rowIndex ≤ x.rowIndex
    · simp [insertRow, h, List.mem_cons]
    · simp [insertRow, h, List.mem_cons, ih]
      tauto

theorem pairwise_insertRow (r : SubmissionRepeatGroupRecord)
    (l : List SubmissionRepeatGroupRecord)
    (h : List.Pairwise (fun r1 r2 => r1.rowIndex ≤ r2.rowIndex) l) :
    List.Pairwise (fun r1 r2 => r1.rowIndex ≤ r2.rowIndex) (insertRow r l) := by
  induction l with
  | nil => simp [insertRow]
  | cons x xs ih =>
    rcases List.pairwise_cons.mp h with ⟨hx, hxs⟩
    by_cases hle : r.rowIndex ≤ x.rowIndex
    · rw [insertRow, if_pos hle]
      refine List.pairwise_cons.mpr ⟨?_, h⟩
      intro y hy
      rcases List.mem_cons.mp hy with rfl | hy'
      · exact hle
      · exact Nat.le_trans hle (hx y hy')
    · rw [insertRow, if_neg hle]
      refine List.pairwise_cons.mpr ⟨?_, ih hxs⟩
      intro y hy
      rcases (mem_insertRow r xs y).mp hy with rfl | hy'
      · exact Nat.le_of_not_le hle
      · exact hx y hy'

theorem perm_insertRow (r : SubmissionRepeatGroupRecord)
    (l : List SubmissionRepeatGroupRecord) : (insertRow r l).Perm (r :: l) := by
  induction l with
  | nil => exact List.Perm.refl _
  | cons x xs ih =>
    by_cases h : r.rowIndex ≤ x.rowIndex
    · rw [insertRow, if_pos h]
    · rw [insertRow, if_neg h]
      exact List.Perm.trans (ih.cons x) (List.Perm.swap r x xs)

theorem pairwise_sortRows (l : List SubmissionRepeatGroupRecord) :
    List.Pairwise (fun r1 r2 => r1.rowIndex ≤ r2.rowIndex) (sortRows l) := by
  induction l with
  | nil => simp [sortRows]
  | cons x xs ih => exact pairwise_insertRow x (sortRows xs) ih

theorem perm_sortRows (l : List SubmissionRepeatGroupRecord) : (sortRows l).Perm l := by
  induction l with
  | nil => exact List.Perm.refl _
  | cons x xs ih => exact List.Perm.trans (perm_insertRow x (sortRows xs)) (ih.cons x)

/-- C6: buildSubmissionAnswerMetadata groups repeated-group rows by field
code sorted by row index ascending, and the group is FRESH exactly when
every row of the group matches the current revision id; one stale row
makes the whole group STALE — a partial match never reports FRESH. -/
theorem submission_group_staleness (t : FormTemplate)
    (responses : List SubmissionResponseRecord)
    (repeats : List SubmissionRepeatGroupRecord) (a : String)
    (q : FormQuestion) (d : QuestionDictionary) (m : AnswerMetadata)
    (hmem : q ∈ templateQuestions t)
    (hnd : ((templateQuestions t).map FormQuestion.fieldCode).Nodup)
    (hd : q.dictionary = some d)
    (hrep : q.isRepeatable = true)
    (hm : lookupKey q.fieldCode (buildSubmissionAnswerMetadata t responses repeats a) =
      some m) :
    List.Pairwise (fun r1 r2 => r1.rowIndex ≤ r2.rowIndex)
      (sortRows (repeats.filter fun r => r.questionCode = q.fieldCode)) ∧
    List.Perm (sortRows (repeats.filter fun r => r.questionCode = q.fieldCode))
      (repeats.filter fun r => r.questionCode = q.fieldCode) ∧
    (m.status = AnswerStatus.FRESH ↔
      ∀ r ∈ repeats.filter (fun r => r.questionCode = q.fieldCode),
        r.questionRevisionId = d.currentRevisionId) ∧
    ((∃ r ∈ repeats.filter (fun r => r.questionCode = q.fieldCode),
        r.questionRevisionId ≠ d.currentRevisionId) → m.status = AnswerStatus.STALE) := by
  have hfq := lookupKey_keyed_filterMap_mem
    (submissionMetadataFor responses repeats a) hmem hnd
  unfold buildSubmissionAnswerMetadata at hm
  rw [hfq] at hm
  simp only [submissionMetadataFor, hd, hrep, if_true] at hm
  cases hsort : sortRows (repeats.filter fun r => r.questionCode = q.fieldCode) with
  | nil =>
    rw [hsort] at hm
    simp at hm
  | cons r0 rest =>
    rw [hsort] at hm
    simp only [Option.some.injEq] at hm
    have hperm := perm_sortRows (repeats.filter fun r => r.questionCode = q.fieldCode)
    rw [hsort] at hperm
    have hmemiff : ∀ r, r ∈ (r0 :: rest) ↔
        r ∈ repeats.filter (fun r => r.questionCode = q.fieldCode) :=
      fun r => hperm.mem_iff
    have hiff : (r0 :: rest).all
        (fun r => r.questionRevisionId = d.currentRevisionId) = true ↔
        ∀ r ∈ repeats.filter (fun r => r.questionCode = q.fieldCode),
          r.questionRevisionId = d.currentRevisionId := by
      rw [List.all_eq_true]
      constructor
      · intro hall r hr
        exact of_decide_eq_true (hall r ((hmemiff r).mpr hr))
      · intro hall r hr
        exact decide_eq_true (hall r ((hmemiff r).mp hr))
    have hstat : m.status =
        if (r0 :: rest).all (fun r => r.questionRevisionId = d.currentRevisionId) then
          AnswerStatus.FRESH
        else AnswerStatus.STALE := by
      rw [← hm]
    refine ⟨hsort ▸ pairwise_sortRows _, hsort ▸ perm_sortRows _, ?_, ?_⟩
    · by_cases hb : (r0 :: rest).all
          (fun r => r.questionRevisionId = d.currentRevisionId) = true
      · rw [hstat, if_pos hb]
        exact iff_of_true rfl (hiff.mp hb)
      · rw [hstat, if_neg hb]
        constructor
        · intro hFalse
          cases hFalse
        · intro hall
          exact absurd (hiff.mpr hall) hb
    · rintro ⟨r, hr, hne⟩
      have hb : ¬ (r0 :: rest).all
          (fun r => r.questionRevisionId = d.currentRevisionId) = true := by
        intro hball
        exact hne (hiff.mp hball r hr)
      rw [hstat, if_neg hb]

theorem submission_group_staleness_check :
    List.Pairwise (fun r1 r2 => r1.rowIndex ≤ r2.rowIndex)
      (sortRows (demoTeamRows.filter fun r => r.questionCode = demoQTeam.fieldCode)) ∧
    List.Perm (sortRows (demoTeamRows.filter fun r => r.questionCode = demoQTeam.fieldCode))
      (demoTeamRows.filter fun r => r.questionCode = demoQTeam.fieldCode) ∧
    ((⟨AnswerStatus.STALE, some "teamMembers", some "rev-team", some "rev-team",
        some "2025-11-07T12:00:00Z", some "submission"⟩ : AnswerMetadata).status =
        AnswerStatus.FRESH ↔
      ∀ r ∈ demoTeamRows.filter (fun r => r.questionCode = demoQTeam.fieldCode),
        r.questionRevisionId = demoDictTeam.currentRevisionId) ∧
    ((∃ r ∈ demoTeamRows.filter (fun r => r.questionCode = demoQTeam.fieldCode),
        r.questionRevisionId ≠ demoDictTeam.currentRevisionId) →
      (⟨AnswerStatus.STALE, some "teamMembers", some "rev-team", some "rev-team",
        some "2025-11-07T12:00:00Z", some "submission"⟩ : AnswerMetadata).status =
        AnswerStatus.STALE) :=
  submission_group_staleness demoTemplateTeam [] demoTeamRows "2025-11-07T12:00:00Z"
    demoQTeam demoDictTeam _ (by decide) (by decide) rfl rfl (by decide)

/-- C10: every entry of buildSubmissionAnswerMetadata — scalar fields and
repeated groups alike — carries the single answeredAt supplied in the
options, never a timestamp taken from the individual persisted records. -/
theorem submission_answeredAt_uniform (t : FormTemplate)
    (responses : List SubmissionResponseRecord)
    (repeats : List SubmissionRepeatGroupRecord) (a fc : String) (m : AnswerMetadata)
    (h : lookupKey fc (buildSubmissionAnswerMetadata t responses repeats a) = some m) :
    m.answeredAt = some a := by
  have hmem := lookupKey_mem h
  unfold buildSubmissionAnswerMetadata at hmem
  rcases List.mem_filterMap.mp hmem with ⟨q, hq, hfm⟩
  rcases Option.map_eq_some'.mp hfm with ⟨m', hm', heq⟩
  have hmm : m' = m := by
    have := congrArg Prod.snd heq
    simpa using this
  subst hmm
  unfold submissionMetadataFor at hm'
  split at hm'
  · exact absurd hm' (by simp)
  · split at hm'
    · split at hm'
      · exact absurd hm' (by simp)
      · simp only [Option.some.injEq] at hm'
        rw [← hm']
    · split at hm'
      · exact absurd hm' (by simp)
      · simp only [Option.some.injEq] at hm'
        rw [← hm']

theorem submission_answeredAt_uniform_check :
    (⟨AnswerStatus.STALE, some "teamMembers", some "rev-team", some "rev-team",
      some "2025-11-07T12:00:00Z", some "submission"⟩ : AnswerMetadata).answeredAt =
      some "2025-11-07T12:00:00Z" :=
  submission_answeredAt_uniform demoTemplateTeam [] demoTeamRows "2025-11-07T12:00:00Z"
    "TEAM_MEMBERS" _ (by decide)

theorem le_maxVersion (r : QuestionRevision) (l : List QuestionRevision) (h : r ∈ l) :
    r.versionNumber ≤ maxVersion l := by
  induction l with
  | nil => cases h
  | cons x xs ih =>
    rcases List.mem_cons.mp h with rfl | h'
    · exact Nat.le_max_left _ _
    · exact Nat.le_trans (ih h') (Nat.le_max_right _ _)

/-- C9: createRevision appends one new immutable revision row with
version number one past the maximum among the existing revisions of that
question, advances the owning question pointer and version counter, never
deletes or mutates a prior revision, and preserves the uniqueness of the
pair questionKey and versionNumber. -/
theorem createRevision_immutable_unique (store store' : RevisionStore)
    (questionKey newId : String) (c : RevisionContent)
    (hok : createRevision store questionKey newId c = Except.ok store') :
    (∃ rev : QuestionRevision,
      store'.revisions = store.revisions ++ [rev] ∧
      rev.questionKey = questionKey ∧ rev.id = newId ∧
      rev.versionNumber =
        maxVersion (store.revisions.filter fun r => r.questionKey = questionKey) + 1) ∧
    (∀ q ∈ store.questions, q.key = questionKey →
      ({ q with
          currentVersion :=
            maxVersion (store.revisions.filter fun r => r.questionKey = questionKey) + 1,
          currentRevisionId := some newId } : QuestionEntry) ∈ store'.questions) ∧
    (UniqueRevisionKey store.revisions → UniqueRevisionKey store'.revisions) := by
  unfold createRevision at hok
  split at hok
  · exact absurd hok (by simp)
  · simp only [Except.ok.injEq] at hok
    subst hok
    refine ⟨⟨_, rfl, rfl, rfl, rfl⟩, ?_, ?_⟩
    · intro q hq hkey
      have hmap := List.mem_map_of_mem
        (fun q' => if q'.key = questionKey then
          ({ q' with
              currentVersion :=
                maxVersion (store.revisions.filter fun r => r.questionKey = questionKey) + 1,
              currentRevisionId := some newId } : QuestionEntry)
          else q') hq
      simpa [hkey] using hmap
    · intro hU r1 h1 r2 h2 hk hv
      have hnewKey : ∀ r ∈ store.revisions, r.questionKey = questionKey →
          r.versionNumber ≤
            maxVersion (store.revisions.filter fun r' => r'.questionKey = questionKey) := by
        intro r hr hrk
        exact le_maxVersion r _ (List.mem_filter.mpr ⟨hr, by simp [hrk]⟩)
      rcases List.mem_append.mp h1 with h1o | h1n
      · rcases List.mem_append.mp h2 with h2o | h2n
        · exact hU r1 h1o r2 h2o hk hv
        · exfalso
          have h2r : r2 = _ := List.mem_singleton.mp h2n
          have hr1k : r1.questionKey = questionKey := by
            rw [hk, h2r]
          have hle := hnewKey r1 h1o hr1k
          rw [hv, h2r] at hle
          simp at hle
      · have h1r : r1 = _ := List.mem_singleton.mp h1n
        rcases List.mem_append.mp h2 with h2o | h2n
        · exfalso
          have hr2k : r2.questionKey = questionKey := by
            rw [← hk, h1r]
          have hle := hnewKey r2 h2o hr2k
          rw [← hv, h1r] at hle
          simp at hle
        · rw [h1r, List.mem_singleton.mp h2n]

theorem createRevision_immutable_unique_check :
    (∃ rev : QuestionRevision,
      demoRevisionStoreAfter.revisions = demoRevisionStore.revisions ++ [rev] ∧
      rev.questionKey = "triage.technologyOverview" ∧ rev.id = "rev-2" ∧
      rev.versionNumber =
        maxVersion (demoRevisionStore.revisions.filter
          fun r => r.questionKey = "triage.technologyOverview") + 1) ∧
    (∀ q ∈ demoRevisionStore.questions, q.key = "triage.technologyOverview" →
      ({ q with
          currentVersion :=
            maxVersion (demoRevisionStore.revisions.filter
              fun r => r.questionKey = "triage.technologyOverview") + 1,
          currentRevisionId := some "rev-2" } : QuestionEntry) ∈
        demoRevisionStoreAfter.questions) ∧
    (UniqueRevisionKey demoRevisionStore.revisions →
      UniqueRevisionKey demoRevisionStoreAfter.revisions) :=
  createRevision_immutable_unique demoRevisionStore demoRevisionStoreAfter
    "triage.technologyOverview" "rev-2" demoRevisionContent rfl

end CCIV
